import Mathlib

/-!
Shallow embedding of the data-acquisition core of `src/app.py`
(risk-dashboard): the yfinance market-data fetcher with its RSI
computation (`get_market_data`), the TAIFEX put/call-ratio backward-date
probe (`get_taifex_chips`), and the memoization behaviour of the
`st.cache_data` decorator that wraps both.

Prices are modelled as exact rationals; the IEEE-754 special values that
pandas produces on division by zero (`inf`, `NaN`) are modelled
explicitly by the type `XQ` below, since the RSI arithmetic of the
source reaches them.
-/

namespace RiskDashboard

/-- Extended rational values: the results of pandas float arithmetic as
used in `get_market_data` (`src/app.py` lines 91-96).  `fin q` is an
ordinary (finite) value, `pinf`/`ninf` are the two infinities produced
by division of a nonzero value by zero, `nan` is the result of `0/0`
and propagates through every operation, as in IEEE-754. -/
inductive XQ where
  | fin (q : ℚ)
  | pinf
  | ninf
  | nan
deriving Repr, DecidableEq

/-- Addition on extended values, IEEE-754 style: `nan` propagates,
opposite infinities give `nan`, an infinity absorbs finite values. -/
def xadd : XQ → XQ → XQ
  | .nan, _ => .nan
  | _, .nan => .nan
  | .pinf, .ninf => .nan
  | .ninf, .pinf => .nan
  | .pinf, _ => .pinf
  | _, .pinf => .pinf
  | .ninf, _ => .ninf
  | _, .ninf => .ninf
  | .fin a, .fin b => .fin (a + b)

/-- Negation on extended values. -/
def xneg : XQ → XQ
  | .fin a => .fin (-a)
  | .pinf => .ninf
  | .ninf => .pinf
  | .nan => .nan

/-- Subtraction on extended values, defined as in IEEE-754 by
`a - b = a + (-b)`. -/
def xsub (a b : XQ) : XQ := xadd a (xneg b)

/-- Division on extended values, IEEE-754 style: `nan` propagates;
a nonzero finite value divided by zero gives a signed infinity;
`0/0` and `inf/inf` give `nan`; a finite value divided by an infinity
gives `0`. -/
def xdiv : XQ → XQ → XQ
  | .nan, _ => .nan
  | _, .nan => .nan
  | .fin a, .fin b =>
      if b = 0 then
        if a = 0 then .nan
        else if 0 < a then .pinf else .ninf
      else .fin (a / b)
  | .fin _, .pinf => .fin 0
  | .fin _, .ninf => .fin 0
  | .pinf, .fin b => if 0 ≤ b then .pinf else .ninf
  | .ninf, .fin b => if 0 ≤ b then .ninf else .pinf
  | .pinf, .pinf => .nan
  | .pinf, .ninf => .nan
  | .ninf, .pinf => .nan
  | .ninf, .ninf => .nan

/-- The record returned by `get_market_data` on success
(`src/app.py` line 98). -/
structure MarketData where
  price : ℚ
  change : ℚ
  rsi : XQ
  history : List ℚ
deriving Repr, DecidableEq

/-- The outcome of `yf.download` as seen by `get_market_data`:
either a closing-price series (already normalised to a single `Close`
column, chronological order) or a raised error (`err`). -/
inductive FetchResult where
  | ok (closes : List ℚ)
  | err
deriving Repr, DecidableEq

/-- `data['Close'].diff()` dropping the leading `NaN`:
`deltas closes` has one entry per index `i ≥ 1` of `closes`, namely
`closes[i] - closes[i-1]` (`src/app.py` line 91). -/
def deltas (closes : List ℚ) : List ℚ :=
  List.zipWith (fun a b => a - b) closes.tail closes

/-- `delta.where(delta > 0, 0)` (`src/app.py` line 92): positive
differences kept, everything else (including the leading `NaN`,
which is not in `deltas`) replaced by `0`. -/
def gains (closes : List ℚ) : List ℚ :=
  (deltas closes).map (fun d => max d 0)

/-- `-delta.where(delta < 0, 0)` (`src/app.py` line 93): magnitudes of
negative differences, everything else replaced by `0`. -/
def losses (closes : List ℚ) : List ℚ :=
  (deltas closes).map (fun d => max (-d) 0)

/-- Sum of the last 14 entries of a list. -/
def last14sum (l : List ℚ) : ℚ := ((l.drop (l.length - 14)).sum)

/-- `rolling(window=14).mean()` evaluated at the last index
(`src/app.py` lines 92-93): defined (`some`) only when the window is
full, i.e. the list has at least 14 entries; `none` models the `NaN`
pandas produces otherwise. -/
def rollingMean14Last (l : List ℚ) : Option ℚ :=
  if l.length < 14 then none else some (last14sum l / 14)

/-- Embeds an optional rational into `XQ`, with `none` (an undefined
rolling mean) becoming `NaN`. -/
def xOfOpt : Option ℚ → XQ
  | none => .nan
  | some q => .fin q

/-- The trailing 14-period average gain at the last index. -/
def avgGain (closes : List ℚ) : Option ℚ := rollingMean14Last (gains closes)

/-- The trailing 14-period average loss at the last index. -/
def avgLoss (closes : List ℚ) : Option ℚ := rollingMean14Last (losses closes)

/-- `float(rsi.iloc[-1])` (`src/app.py` lines 94-96):
`rs = gain/loss`, `rsi = 100 - 100/(1 + rs)`, evaluated at the last
index with pandas (IEEE-754) division semantics. -/
def rsiLast (closes : List ℚ) : XQ :=
  xsub (.fin 100)
    (xdiv (.fin 100)
      (xadd (.fin 1) (xdiv (xOfOpt (avgGain closes)) (xOfOpt (avgLoss closes)))))

/-- `float(data['Close'].iloc[-1])` (`src/app.py` line 87); the default
`0` is never reached under the length-≥-15 guard. -/
def lastClose (closes : List ℚ) : ℚ := closes.getLastD 0

/-- `float(data['Close'].iloc[-2])` (`src/app.py` line 88); the default
`0` is never reached under the length-≥-15 guard. -/
def prevClose (closes : List ℚ) : ℚ := closes.dropLast.getLastD 0

/-- `get_market_data` (`src/app.py` lines 81-99).  A raised download
error is caught by the `try`/`except` and becomes `none`; fewer than 15
points returns `none` (line 85); a zero previous close raises
`ZeroDivisionError` in the Python float division on line 89, which the
`except` also converts to `none`; otherwise the full record of line 98
is returned. -/
def get_market_data : FetchResult → Option MarketData
  | .err => none
  | .ok closes =>
      if closes.length < 15 then none
      else if prevClose closes = 0 then none
      else some
        { price := lastClose closes
          change := (lastClose closes - prevClose closes) / prevClose closes * 100
          rsi := rsiLast closes
          history := closes }

/-- One row of the parsed TAIFEX put/call-ratio CSV
(`src/app.py` lines 61-68).  `date` is the reported date label
(`row['日期']`).  `ratio` is the value of the open-interest-ratio
column: `some q` when `float(...)` succeeds on it, `none` when the
cell is missing or non-numeric so that `float(...)` raises. -/
structure Row where
  date : String
  ratio : Option ℚ
deriving Repr, DecidableEq

/-- What one single-day query of the ratio source yields, as seen by
the `try` block of `src/app.py` lines 56-63: `err` when the request or
both decode attempts raise, `table rows` when a table is parsed
(possibly with zero rows, `df.empty`). -/
inductive Resp where
  | err
  | table (rows : List Row)
deriving Repr, DecidableEq

/-- The record returned by `get_taifex_chips` on success
(`src/app.py` lines 69-73). -/
structure Chips where
  date : String
  pc_ratio : ℚ
  status : String
deriving Repr, DecidableEq

/-- The body of one loop iteration of `get_taifex_chips`
(`src/app.py` lines 56-75): `none` means the iteration falls through
to the next offset (request/parse error, empty table, or `float(...)`
raising on the ratio cell of the last row); `some` is the immediate
return of lines 69-73, with `status` derived by the `ratio > 100`
threshold of line 72. -/
def attempt : Resp → Option Chips
  | .err => none
  | .table rows =>
      match rows.getLast? with
      | none => none
      | some row =>
          match row.ratio with
          | none => none
          | some r =>
              some { date := row.date
                     pc_ratio := r
                     status := if r > 100 then "偏多 (支撐強)" else "偏空 (壓力大)" }

/-- The `for i in range(7)` loop of `get_taifex_chips`
(`src/app.py` lines 47-77), run over an explicit list of offsets.
Returns the list of offsets actually requested (one network call per
offset tried, in list order) together with the result: the first
offset whose attempt succeeds stops the loop. -/
def runOffsets (resp : ℕ → Resp) : List ℕ → List ℕ × Option Chips
  | [] => ([], none)
  | i :: rest =>
      match attempt (resp i) with
      | some c => ([i], some c)
      | none =>
          let r := runOffsets resp rest
          (i :: r.1, r.2)

/-- `get_taifex_chips` (`src/app.py` lines 41-77): walk offsets 0..6
from today backward; first successful offset wins; `none` after all
seven offsets fail.  `resp i` is the outcome of the single-day query
for `today - i days`; the clock only enters through the dates queried,
hence through `resp`. -/
def get_taifex_chips (resp : ℕ → Resp) : Option Chips :=
  (runOffsets resp (List.range 7)).2

/-- The offsets actually requested by one `get_taifex_chips`
invocation, in request order. -/
def callTrace (resp : ℕ → Resp) : List ℕ :=
  (runOffsets resp (List.range 7)).1

/-- State of one cache slot of `st.cache_data`: `none` when no entry
exists, otherwise the memoized value with the time it was produced. -/
structure CacheState (α : Type) where
  entry : Option (α × ℕ)
deriving Repr, DecidableEq

/-- Modelled behaviour of the `st.cache_data(ttl=...)` decorator
applied at `src/app.py` lines 40 and 80 (the decorator's code is not
part of this repository; this follows streamlit's documented
semantics): on a call at time `now`, a stored entry younger than `ttl`
is returned without running the wrapped function; otherwise the
wrapped function runs and its return value — whatever it is, a `None`
failure included, since `st.cache_data` memoizes the returned value
unconditionally — is stored with timestamp `now`.  The `Bool` reports
whether the wrapped compute function was invoked on this call. -/
def cacheGet {α : Type} (ttl now : ℕ) (compute : α) (st : CacheState α) :
    α × CacheState α × Bool :=
  match st.entry with
  | some (v, t) =>
      if now - t < ttl then (v, st, false)
      else (compute, ⟨some (compute, now)⟩, true)
  | none => (compute, ⟨some (compute, now)⟩, true)

/-! Helper lemmas about the series computations. -/

lemma length_deltas (closes : List ℚ) : (deltas closes).length = closes.length - 1 := by
  simp [deltas]

lemma length_gains (closes : List ℚ) : (gains closes).length = closes.length - 1 := by
  simp [gains, length_deltas]

lemma length_losses (closes : List ℚ) : (losses closes).length = closes.length - 1 := by
  simp [losses, length_deltas]

lemma gains_nonneg (closes : List ℚ) : ∀ x ∈ gains closes, 0 ≤ x := by
  intro x hx
  simp only [gains, List.mem_map] at hx
  obtain ⟨d, _, rfl⟩ := hx
  exact le_max_right d 0

lemma losses_nonneg (closes : List ℚ) : ∀ x ∈ losses closes, 0 ≤ x := by
  intro x hx
  simp only [losses, List.mem_map] at hx
  obtain ⟨d, _, rfl⟩ := hx
  exact le_max_right (-d) 0

lemma avgGain_eq (closes : List ℚ) (h15 : 15 ≤ closes.length) :
    avgGain closes = some (last14sum (gains closes) / 14) := by
  have h : ¬ (gains closes).length < 14 := by rw [length_gains]; omega
  simp [avgGain, rollingMean14Last, h]

lemma avgLoss_eq (closes : List ℚ) (h15 : 15 ≤ closes.length) :
    avgLoss closes = some (last14sum (losses closes) / 14) := by
  have h : ¬ (losses closes).length < 14 := by rw [length_losses]; omega
  simp [avgLoss, rollingMean14Last, h]

lemma last14sum_gains_nonneg (closes : List ℚ) : 0 ≤ last14sum (gains closes) := by
  apply List.sum_nonneg
  intro x hx
  exact gains_nonneg closes x (List.drop_subset _ _ hx)

lemma last14sum_losses_nonneg (closes : List ℚ) : 0 ≤ last14sum (losses closes) := by
  apply List.sum_nonneg
  intro x hx
  exact losses_nonneg closes x (List.drop_subset _ _ hx)

/-- An offset where the parsed table is absent: the single-day query
raised or failed to parse (`err`), or parsed to an empty table. -/
def emptyOrErr : Resp → Prop
  | .err => True
  | .table rows => rows = []

/-- An offset the loop of `get_taifex_chips` skips: the request raised,
parsing failed, the table was empty, or the `float(...)` extraction on
the last row raised. -/
def offsetFails : Resp → Prop
  | .err => True
  | .table rows => rows = [] ∨ ∃ row, rows.getLast? = some row ∧ row.ratio = none

lemma attempt_eq_none_of_emptyOrErr (r : Resp) (h : emptyOrErr r) : attempt r = none := by
  cases r with
  | err => rfl
  | table rows =>
      have h' : rows = [] := h
      subst h'
      rfl

lemma attempt_eq_none_of_offsetFails (r : Resp) (h : offsetFails r) : attempt r = none := by
  cases r with
  | err => rfl
  | table rows =>
      rcases h with h | ⟨row, hrow, hq⟩
      · subst h; rfl
      · simp [attempt, hrow, hq]

lemma runOffsets_range'_none (resp : ℕ → Resp) (n : ℕ) :
    ∀ s : ℕ, (∀ j, s ≤ j → j < s + n → attempt (resp j) = none) →
      runOffsets resp (List.range' s n) = (List.range' s n, none) := by
  induction n with
  | zero => intro s _; rfl
  | succ n ih =>
      intro s h
      have hs : attempt (resp s) = none := h s le_rfl (by omega)
      have hrest := ih (s + 1) (fun j h1 h2 => h j (by omega) (by omega))
      simp [List.range'_succ, runOffsets, hs, hrest]

lemma runOffsets_range'_hit (resp : ℕ → Resp) (c : Chips) :
    ∀ (k s n : ℕ), k < n →
      (∀ j, s ≤ j → j < s + k → attempt (resp j) = none) →
      attempt (resp (s + k)) = some c →
      runOffsets resp (List.range' s n) = (List.range' s (k + 1), some c) := by
  intro k
  induction k with
  | zero =>
      intro s n hk hnone hc
      obtain ⟨m, rfl⟩ : ∃ m, n = m + 1 := ⟨n - 1, by omega⟩
      rw [Nat.add_zero] at hc
      rw [List.range'_succ]
      simp [runOffsets, hc, List.range'_succ]
  | succ k ih =>
      intro s n hk hnone hc
      obtain ⟨m, rfl⟩ : ∃ m, n = m + 1 := ⟨n - 1, by omega⟩
      have hs : attempt (resp s) = none := hnone s le_rfl (by omega)
      have hc' : attempt (resp (s + 1 + k)) = some c := by
        rw [show s + 1 + k = s + (k + 1) from by omega]; exact hc
      have ih' := ih (s + 1) m (by omega)
        (fun j h1 h2 => hnone j (by omega) (by omega)) hc'
      rw [List.range'_succ, List.range'_succ]
      simp [runOffsets, hs, ih']

lemma deltas_replicate (c : ℚ) (n : ℕ) :
    deltas (List.replicate n c) = List.replicate (n - 1) 0 := by
  induction n with
  | zero => rfl
  | succ m ih =>
      cases m with
      | zero => rfl
      | succ k =>
          simp only [List.replicate_succ, deltas, List.tail_cons,
            List.zipWith_cons_cons] at ih ⊢
          rw [ih]
          simp [sub_self, List.replicate_succ]

lemma getLastD_replicate (c d : ℚ) (m : ℕ) :
    (List.replicate m c).getLastD d = if m = 0 then d else c := by
  induction m generalizing d with
  | zero => rfl
  | succ k ih =>
      rw [List.replicate_succ, List.getLastD_cons, ih c]
      by_cases hk : k = 0 <;> simp [hk]

/-! Claim C1: caching of failures. -/

/-- C1, counterexample.  A compute failure (`None`) at time 0 is stored
in the cache, and a second call at time 10 — inside the 60-second TTL
window, with a compute function that would now succeed — does not
invoke the compute function (flag `false`) and replays the cached
`None`.  This refutes the claim that a failure is not stored and that a
subsequent call within the TTL re-invokes the compute function. -/
theorem c1_cex :
    cacheGet 60 0 (none : Option MarketData) ⟨none⟩ = (none, ⟨some (none, 0)⟩, true) ∧
    (cacheGet 60 10
      (some { price := 1, change := 0, rsi := .fin 50, history := [1] } : Option MarketData)
      ⟨some (none, 0)⟩).2.2 = false ∧
    (cacheGet 60 10
      (some { price := 1, change := 0, rsi := .fin 50, history := [1] } : Option MarketData)
      ⟨some (none, 0)⟩).1 = none :=
  ⟨rfl, rfl, rfl⟩

/-- C1, amended: `st.cache_data` memoizes the fetcher's return value
unconditionally, a `None` failure included.  Within the TTL window the
stored value — also a stored failure — is replayed without invoking the
compute function; the compute function runs (and its result is stored)
when no entry exists. -/
theorem c1_amended (ttl now t : ℕ) (v compute : Option MarketData)
    (h : now - t < ttl) :
    cacheGet ttl now compute ⟨some (v, t)⟩ = (v, ⟨some (v, t)⟩, false) ∧
    cacheGet ttl now compute ⟨none⟩ = (compute, ⟨some (compute, now)⟩, true) := by
  constructor
  · simp [cacheGet, h]
  · rfl

/-- C1, witness: the amended theorem evaluated with TTL 60 at times 0
and 10 on a cached failure. -/
theorem c1_witness :
    cacheGet 60 10
      (some { price := 1, change := 0, rsi := .fin 50, history := [1] } : Option MarketData)
      ⟨some (none, 0)⟩ = (none, ⟨some (none, 0)⟩, false) :=
  (c1_amended 60 10 0 none
    (some { price := 1, change := 0, rsi := .fin 50, history := [1] }) (by decide)).1

/-! Claim C3: first successful offset wins. -/

/-- C3: if every offset before `k` yields an error or an empty parsed
table, and offset `k < 7` parses to a non-empty table whose last row
carries date label `row.date` and ratio `q`, then `get_taifex_chips`
requests exactly the offsets `0, 1, ..., k` in increasing order (that
is, `k+1` requests) and returns that row's date label exactly as
reported, its ratio, and the status derived by the `> 100`
threshold. -/
theorem c3_first_success (resp : ℕ → Resp) (k : ℕ) (hk : k < 7)
    (hbefore : ∀ j, j < k → emptyOrErr (resp j))
    (rows : List Row) (htab : resp k = .table rows)
    (row : Row) (hlast : rows.getLast? = some row)
    (q : ℚ) (hq : row.ratio = some q) :
    callTrace resp = List.range (k + 1) ∧
    get_taifex_chips resp =
      some { date := row.date, pc_ratio := q,
             status := if q > 100 then "偏多 (支撐強)" else "偏空 (壓力大)" } := by
  have hc : attempt (resp k) =
      some { date := row.date, pc_ratio := q,
             status := if q > 100 then "偏多 (支撐強)" else "偏空 (壓力大)" } := by
    rw [htab]
    simp [attempt, hlast, hq]
  have hnone : ∀ j, 0 ≤ j → j < 0 + k → attempt (resp j) = none := fun j _ hj =>
    attempt_eq_none_of_emptyOrErr _ (hbefore j (by omega))
  have hck : attempt (resp (0 + k)) =
      some { date := row.date, pc_ratio := q,
             status := if q > 100 then "偏多 (支撐強)" else "偏空 (壓力大)" } := by
    rw [Nat.zero_add]; exact hc
  have hrun := runOffsets_range'_hit resp _ k 0 7 hk hnone hck
  constructor
  · show (runOffsets resp (List.range 7)).1 = List.range (k + 1)
    rw [List.range_eq_range', hrun, ← List.range_eq_range']
  · show (runOffsets resp (List.range 7)).2 = _
    rw [List.range_eq_range', hrun]

/-- C3, witness: offsets 0 and 1 return empty tables, offset 2 returns
a one-row table; exactly three calls are made, in order 0,1,2, and the
row's values are returned. -/
theorem c3_witness :
    callTrace (fun i => if i < 2 then Resp.table [] else
        Resp.table [{ date := "2025/11/19", ratio := some 120 }]) = List.range 3 ∧
    get_taifex_chips (fun i => if i < 2 then Resp.table [] else
        Resp.table [{ date := "2025/11/19", ratio := some 120 }]) =
      some { date := "2025/11/19", pc_ratio := 120,
             status := if (120 : ℚ) > 100 then "偏多 (支撐強)" else "偏空 (壓力大)" } :=
  c3_first_success _ 2 (by decide)
    (by intro j hj; interval_cases j <;> exact rfl)
    [{ date := "2025/11/19", ratio := some 120 }] rfl
    { date := "2025/11/19", ratio := some 120 } rfl
    120 rfl

/-! Claim C4: exhausted horizon. -/

/-- C4: if every one of the 7 offsets raises, fails to parse, fails
extraction, or yields an empty table, then `get_taifex_chips` makes
exactly 7 requests, at offsets 0..6 in increasing order, and returns
the failure value `none` — no per-offset error escapes. -/
theorem c4_exhausted (resp : ℕ → Resp)
    (hall : ∀ j, j < 7 → offsetFails (resp j)) :
    callTrace resp = List.range 7 ∧ get_taifex_chips resp = none := by
  have h := runOffsets_range'_none resp 7 0
    (fun j _ h2 => attempt_eq_none_of_offsetFails _ (hall j (by omega)))
  constructor
  · show (runOffsets resp (List.range 7)).1 = List.range 7
    rw [List.range_eq_range', h]
  · show (runOffsets resp (List.range 7)).2 = none
    rw [List.range_eq_range', h]

/-- C4, witness: a source that raises at every offset gives seven calls
in order 0..6 and the failure result. -/
theorem c4_witness :
    callTrace (fun _ => Resp.err) = List.range 7 ∧
    get_taifex_chips (fun _ => Resp.err) = none :=
  c4_exhausted (fun _ => Resp.err) (fun _ _ => trivial)

/-! Claim C10: determinism of both fetchers. -/

/-- C10: two runs of `get_taifex_chips` seeing identical per-offset
responses (the clock enters only through the dates queried, hence
through the response function), and two runs of `get_market_data`
seeing identical download outcomes, return identical results: both
embedded fetchers are functions of those inputs alone. -/
theorem c10_deterministic (resp₁ resp₂ : ℕ → Resp) (inp₁ inp₂ : FetchResult)
    (h₁ : resp₁ = resp₂) (h₂ : inp₁ = inp₂) :
    get_taifex_chips resp₁ = get_taifex_chips resp₂ ∧
    get_market_data inp₁ = get_market_data inp₂ := by
  subst h₁; subst h₂; exact ⟨rfl, rfl⟩

/-- C10, witness: determinism instantiated at an erroring ratio source
and an erroring download. -/
theorem c10_witness :
    get_taifex_chips (fun _ => Resp.err) = get_taifex_chips (fun _ => Resp.err) ∧
    get_market_data .err = get_market_data .err :=
  c10_deterministic (fun _ => Resp.err) (fun _ => Resp.err) .err .err rfl rfl

/-! Claim C8: price, percent change, and the zero-previous-close case. -/

/-- C8: for a series of at least 15 points, the returned `price` is the
last close and `change` is `(last - previous) / previous * 100`; when
the previous close is zero the whole call fails (the Python float
division raises `ZeroDivisionError`, converted to `None` by the
`except`). -/
theorem c8_price_change (closes : List ℚ) (h15 : 15 ≤ closes.length) :
    (prevClose closes = 0 → get_market_data (.ok closes) = none) ∧
    (prevClose closes ≠ 0 →
      get_market_data (.ok closes) =
        some { price := lastClose closes
               change := (lastClose closes - prevClose closes) / prevClose closes * 100
               rsi := rsiLast closes
               history := closes }) := by
  have hlt : ¬ closes.length < 15 := by omega
  exact ⟨fun h0 => by simp [get_market_data, hlt, h0],
         fun h0 => by simp [get_market_data, hlt, h0]⟩

/-- C8, witness: evaluated on a 15-point series whose previous close is
2 and last close is 4. -/
theorem c8_witness :
    get_market_data (.ok [1, 1, 1, 1, 1, 1, 1, 1, 1, 1, 1, 1, 1, 2, 4]) =
      some { price := lastClose [1, 1, 1, 1, 1, 1, 1, 1, 1, 1, 1, 1, 1, 2, 4]
             change := (lastClose [1, 1, 1, 1, 1, 1, 1, 1, 1, 1, 1, 1, 1, 2, 4] -
                 prevClose [1, 1, 1, 1, 1, 1, 1, 1, 1, 1, 1, 1, 1, 2, 4]) /
               prevClose [1, 1, 1, 1, 1, 1, 1, 1, 1, 1, 1, 1, 1, 2, 4] * 100
             rsi := rsiLast [1, 1, 1, 1, 1, 1, 1, 1, 1, 1, 1, 1, 1, 2, 4]
             history := [1, 1, 1, 1, 1, 1, 1, 1, 1, 1, 1, 1, 1, 2, 4] } :=
  (c8_price_change _ (by decide)).2 (by decide)

/-! Claim C6: all-or-nothing contract of the series fetch. -/

/-- C6, counterexample.  A 15-point series whose second-to-last close
is zero: the series is long enough and no network error occurred, yet
`get_market_data` fails (the percent-change division raises), so the
fetch does not fail *exactly* on short series and network errors. -/
theorem c6_cex :
    15 ≤ ([1, 1, 1, 1, 1, 1, 1, 1, 1, 1, 1, 1, 1, 0, 1] : List ℚ).length ∧
    get_market_data (.ok [1, 1, 1, 1, 1, 1, 1, 1, 1, 1, 1, 1, 1, 0, 1]) = none := by
  constructor
  · decide
  · decide

/-- C6, amended: the fetch fails exactly when the download raised, the
series has fewer than 15 points, or the previous close is zero; on
success the full input series is returned as the history — no partial
series. -/
theorem c6_amended (inp : FetchResult) :
    (get_market_data inp = none ↔
      inp = .err ∨ ∃ closes, inp = .ok closes ∧
        (closes.length < 15 ∨ prevClose closes = 0)) ∧
    (∀ closes r, inp = .ok closes → get_market_data inp = some r →
      r.history = closes) := by
  cases inp with
  | err =>
      constructor
      · simp [get_market_data]
      · intro closes r h
        simp at h
  | ok closes =>
      constructor
      · by_cases h1 : closes.length < 15
        · simp [get_market_data, h1]
        · by_cases h2 : prevClose closes = 0
          · simp [get_market_data, h1, h2]
          · simp [get_market_data, h1, h2]
      · intro cs r h hr
        obtain rfl : closes = cs := by injection h
        by_cases h1 : closes.length < 15
        · simp [get_market_data, h1] at hr
        · by_cases h2 : prevClose closes = 0
          · simp [get_market_data, h1, h2] at hr
          · simp only [get_market_data, h1, if_false, h2, if_neg,
              Option.some.injEq] at hr
            rw [← hr]

/-! Claim C9: in-bounds accesses and reachability of the failure branch. -/

/-- C9, counterexample.  With 15 rows and every close defined, every
access is in bounds — yet the failure branch is still reached, through
the zero previous close, so failure is not reachable *only* via the
short-series guard or a download error. -/
theorem c9_cex :
    15 ≤ ([2, 2, 2, 2, 2, 2, 2, 2, 2, 2, 2, 2, 2, 0, 3] : List ℚ).length ∧
    get_market_data (.ok [2, 2, 2, 2, 2, 2, 2, 2, 2, 2, 2, 2, 2, 0, 3]) = none := by
  constructor
  · decide
  · decide

/-- C9, amended: for every series of at least 15 points, the last and
second-to-last closes exist and the 14-period rolling means of gains
and losses are defined at the last index (all accesses in bounds); the
failure branch on such input is reached exactly when the previous close
is zero. -/
theorem c9_amended (closes : List ℚ) (h15 : 15 ≤ closes.length) :
    closes.getLast?.isSome = true ∧
    closes.dropLast.getLast?.isSome = true ∧
    (avgGain closes).isSome = true ∧
    (avgLoss closes).isSome = true ∧
    (get_market_data (.ok closes) = none ↔ prevClose closes = 0) := by
  have hlt : ¬ closes.length < 15 := by omega
  refine ⟨?_, ?_, ?_, ?_, ?_⟩
  · rw [List.getLast?_isSome]
    intro h
    rw [h] at h15
    simp at h15
  · rw [List.getLast?_isSome]
    rw [← List.length_pos, List.length_dropLast]
    omega
  · rw [avgGain_eq closes h15]; rfl
  · rw [avgLoss_eq closes h15]; rfl
  · constructor
    · intro h
      by_cases h2 : prevClose closes = 0
      · exact h2
      · simp [get_market_data, hlt, h2] at h
    · intro h2
      simp [get_market_data, hlt, h2]

/-- C9, witness: the amended theorem evaluated on a concrete 15-point
series. -/
theorem c9_witness :
    ([3, 3, 3, 3, 3, 3, 3, 3, 3, 3, 3, 3, 3, 3, 9] : List ℚ).getLast?.isSome = true ∧
    ([3, 3, 3, 3, 3, 3, 3, 3, 3, 3, 3, 3, 3, 3, 9] : List ℚ).dropLast.getLast?.isSome = true ∧
    (avgGain [3, 3, 3, 3, 3, 3, 3, 3, 3, 3, 3, 3, 3, 3, 9]).isSome = true ∧
    (avgLoss [3, 3, 3, 3, 3, 3, 3, 3, 3, 3, 3, 3, 3, 3, 9]).isSome = true ∧
    (get_market_data (.ok [3, 3, 3, 3, 3, 3, 3, 3, 3, 3, 3, 3, 3, 3, 9]) = none ↔
      prevClose [3, 3, 3, 3, 3, 3, 3, 3, 3, 3, 3, 3, 3, 3, 9] = 0) :=
  c9_amended [3, 3, 3, 3, 3, 3, 3, 3, 3, 3, 3, 3, 3, 3, 9] (by decide)

/-! Claim C2: the zero-average-loss edge case. -/

/-- C2, counterexample.  The strictly increasing 15-point series
`1..15` has trailing average loss zero, yet `get_market_data` does not
fail: it returns a successful result whose indicator is exactly 100 —
refuting that the computation surfaces a failure and never returns
100. -/
theorem c2_cex :
    avgLoss [1, 2, 3, 4, 5, 6, 7, 8, 9, 10, 11, 12, 13, 14, 15] = some 0 ∧
    (get_market_data (.ok [1, 2, 3, 4, 5, 6, 7, 8, 9, 10, 11, 12, 13, 14, 15])).map
      MarketData.rsi = some (.fin 100) := by
  constructor
  · norm_num [avgLoss, rollingMean14Last, losses, deltas, last14sum,
      List.zipWith, List.drop]
  · norm_num [get_market_data, prevClose, lastClose, rsiLast, avgGain, avgLoss,
      rollingMean14Last, gains, losses, deltas, last14sum, xOfOpt, xdiv, xadd,
      xsub, xneg, List.zipWith, List.drop, List.getLastD]

/-- C2, amended: when the trailing 14-period average loss is zero (and
the previous close is nonzero, so the call does not fail earlier), the
computation does not surface a failure: it returns a successful result
whose indicator is `NaN` when the average gain is also zero and exactly
100 otherwise. -/
theorem c2_amended (closes : List ℚ) (h15 : 15 ≤ closes.length)
    (hprev : prevClose closes ≠ 0) (hloss : avgLoss closes = some 0) :
    ∃ r, get_market_data (.ok closes) = some r ∧
      r.rsi = (if avgGain closes = some 0 then XQ.nan else XQ.fin 100) := by
  have hlt : ¬ closes.length < 15 := by omega
  have hsome : get_market_data (.ok closes) =
      some { price := lastClose closes
             change := (lastClose closes - prevClose closes) / prevClose closes * 100
             rsi := rsiLast closes
             history := closes } := by
    simp [get_market_data, hlt, hprev]
  refine ⟨_, hsome, ?_⟩
  show rsiLast closes = _
  obtain ⟨g, hg, hg0⟩ : ∃ g, avgGain closes = some g ∧ 0 ≤ g :=
    ⟨_, avgGain_eq closes h15,
      div_nonneg (last14sum_gains_nonneg closes) (by norm_num)⟩
  by_cases hz : g = 0
  · subst hz
    rw [if_pos (by rw [hg])]
    simp only [rsiLast, hg, hloss, xOfOpt]
    simp [xdiv, xadd, xsub, xneg]
  · have hpos : 0 < g := lt_of_le_of_ne hg0 (Ne.symm hz)
    rw [if_neg (by rw [hg]; simp [hz])]
    simp only [rsiLast, hg, hloss, xOfOpt]
    simp [xdiv, xadd, xsub, xneg, hz, hpos]

/-- C2, witness: the amended theorem evaluated on the increasing
16-point series `1..16`, whose average gain is nonzero, giving
indicator 100 inside a successful result. -/
theorem c2_witness :
    ∃ r, get_market_data
        (.ok [1, 2, 3, 4, 5, 6, 7, 8, 9, 10, 11, 12, 13, 14, 15, 16]) = some r ∧
      r.rsi = (if avgGain [1, 2, 3, 4, 5, 6, 7, 8, 9, 10, 11, 12, 13, 14, 15, 16] = some 0
        then XQ.nan else XQ.fin 100) :=
  c2_amended [1, 2, 3, 4, 5, 6, 7, 8, 9, 10, 11, 12, 13, 14, 15, 16]
    (by decide) (by decide)
    (by norm_num [avgLoss, rollingMean14Last, losses, deltas, last14sum,
      List.zipWith, List.drop])

/-! Claim C5: constant price sequences. -/

/-- C5, counterexample.  For the constant 15-point series of value 7,
`get_market_data` does not surface a failure: it returns a successful
result — whose indicator is the `NaN` produced by `0/0` — refuting that
the indicator result is a failure. -/
theorem c5_cex :
    (get_market_data (.ok [7, 7, 7, 7, 7, 7, 7, 7, 7, 7, 7, 7, 7, 7, 7])).isSome = true ∧
    (get_market_data (.ok [7, 7, 7, 7, 7, 7, 7, 7, 7, 7, 7, 7, 7, 7, 7])).map
      MarketData.rsi = some .nan := by
  constructor
  · norm_num [get_market_data, prevClose, lastClose, List.getLastD]
  · norm_num [get_market_data, prevClose, lastClose, rsiLast, avgGain, avgLoss,
      rollingMean14Last, gains, losses, deltas, last14sum, xOfOpt, xdiv, xadd,
      xsub, xneg, List.zipWith, List.drop, List.getLastD]

/-- C5, amended: for a constant series of length at least 15 with a
nonzero value the percent change is 0 and the call succeeds with a
`NaN` indicator (average gain and loss are both zero, so `rs` is `0/0`);
for the constant-zero series the whole call fails instead (zero
previous close). -/
theorem c5_amended (c : ℚ) (n : ℕ) (h : 15 ≤ n) :
    (c ≠ 0 → get_market_data (.ok (List.replicate n c)) =
      some { price := c, change := 0, rsi := .nan,
             history := List.replicate n c }) ∧
    (c = 0 → get_market_data (.ok (List.replicate n c)) = none) := by
  have hlen : (List.replicate n c).length = n := List.length_replicate n c
  have hlt : ¬ (List.replicate n c).length < 15 := by rw [hlen]; omega
  have h15' : 15 ≤ (List.replicate n c).length := by omega
  have hprev : prevClose (List.replicate n c) = c := by
    obtain ⟨m, rfl⟩ : ∃ m, n = m + 1 := ⟨n - 1, by omega⟩
    rw [prevClose, List.replicate_succ', List.dropLast_concat, getLastD_replicate]
    simp [show m ≠ 0 from by omega]
  have hlast : lastClose (List.replicate n c) = c := by
    rw [lastClose, getLastD_replicate]
    simp [show n ≠ 0 from by omega]
  have hgl : gains (List.replicate n c) = List.replicate (n - 1) 0 := by
    rw [gains, deltas_replicate, List.map_replicate]
    norm_num
  have hll : losses (List.replicate n c) = List.replicate (n - 1) 0 := by
    rw [losses, deltas_replicate, List.map_replicate]
    norm_num
  have hsum : last14sum (List.replicate (n - 1) (0 : ℚ)) = 0 := by
    rw [last14sum]
    apply List.sum_eq_zero
    intro x hx
    exact List.eq_of_mem_replicate (List.drop_subset _ _ hx)
  have hag : avgGain (List.replicate n c) = some 0 := by
    rw [avgGain_eq _ h15', hgl, hsum, zero_div]
  have hal : avgLoss (List.replicate n c) = some 0 := by
    rw [avgLoss_eq _ h15', hll, hsum, zero_div]
  have hrsi : rsiLast (List.replicate n c) = .nan := by
    simp only [rsiLast, hag, hal, xOfOpt]
    simp [xdiv, xadd, xsub, xneg]
  constructor
  · intro hc
    have hprev' : ¬ prevClose (List.replicate n c) = 0 := by rw [hprev]; exact hc
    simp [get_market_data, hlt, hprev', hlast, hprev, hrsi, sub_self, zero_div,
      zero_mul]
    exact ⟨h, hc⟩
  · intro hc
    subst hc
    simp [get_market_data, hlt, hprev]

/-- C5, witness: the amended theorem evaluated on the constant series
of fifteen 5s. -/
theorem c5_witness :
    get_market_data (.ok (List.replicate 15 (5 : ℚ))) =
      some { price := 5, change := 0, rsi := .nan,
             history := List.replicate 15 (5 : ℚ) } :=
  (c5_amended 5 15 (by norm_num)).1 (by norm_num)

/-! Claim C7: bounds of the indicator under no-zero-loss windows. -/

lemma getD_drop_sub (l : List ℚ) (i j : ℕ) (h : i ≤ j) :
    (l.drop i).getD (j - i) 0 = l.getD j 0 := by
  rw [List.getD_eq_getElem?_getD, List.getD_eq_getElem?_getD, List.getElem?_drop]
  congr 2
  omega

/-- The hypothesis of claim C7: every trailing 14-period window of
price differences contains at least one strictly negative
difference. -/
def everyWindowHasLoss (closes : List ℚ) : Prop :=
  ∀ i, i + 14 ≤ (deltas closes).length →
    ∃ j, i ≤ j ∧ j < i + 14 ∧ (deltas closes).getD j 0 < 0

/-- C7, counterexample.  The strictly decreasing series `16..2`
satisfies the no-zero-loss-window hypothesis, yet the computed
indicator is exactly 0 — on the boundary, not strictly inside the
interval. -/
theorem c7_cex :
    everyWindowHasLoss [16, 15, 14, 13, 12, 11, 10, 9, 8, 7, 6, 5, 4, 3, 2] ∧
    (get_market_data (.ok [16, 15, 14, 13, 12, 11, 10, 9, 8, 7, 6, 5, 4, 3, 2])).map
      MarketData.rsi = some (.fin 0) ∧
    ¬ ((0 : ℚ) < 0) := by
  refine ⟨?_, ?_, by norm_num⟩
  · intro i hi
    have hL : (deltas [16, 15, 14, 13, 12, 11, 10, 9, 8, 7, 6, 5, 4, 3, 2]).length = 14 := by
      decide
    rw [hL] at hi
    have hi0 : i = 0 := by omega
    subst hi0
    refine ⟨0, le_refl 0, by norm_num, ?_⟩
    norm_num [deltas, List.zipWith, List.getD_cons_zero]
  · norm_num [get_market_data, prevClose, lastClose, rsiLast, avgGain, avgLoss,
      rollingMean14Last, gains, losses, deltas, last14sum, xOfOpt, xdiv, xadd,
      xsub, xneg, List.zipWith, List.drop, List.getLastD]

/-- C7, amended: under the no-zero-loss-window hypothesis, whenever the
call succeeds the computed indicator is a finite value `q` with
`0 ≤ q < 100`: strictly below 100, but attaining 0 exactly when the
last window has no gains, so not strictly inside the interval. -/
theorem c7_amended (closes : List ℚ) (h15 : 15 ≤ closes.length)
    (hw : everyWindowHasLoss closes) (r : MarketData)
    (hr : get_market_data (.ok closes) = some r) :
    ∃ q, r.rsi = XQ.fin q ∧ 0 ≤ q ∧ q < 100 := by
  have hlt : ¬ closes.length < 15 := by omega
  have hLd : (deltas closes).length = closes.length - 1 := length_deltas closes
  have hLl : (losses closes).length = closes.length - 1 := length_losses closes
  by_cases h2 : prevClose closes = 0
  · rw [show get_market_data (.ok closes) = none from by
      simp [get_market_data, hlt, h2]] at hr
    exact absurd hr (by simp)
  · have hsome : get_market_data (.ok closes) =
        some { price := lastClose closes
               change := (lastClose closes - prevClose closes) / prevClose closes * 100
               rsi := rsiLast closes
               history := closes } := by
      simp [get_market_data, hlt, h2]
    rw [hsome] at hr
    obtain rfl := Option.some.inj hr
    show ∃ q, rsiLast closes = XQ.fin q ∧ 0 ≤ q ∧ q < 100
    obtain ⟨g, hg, hg0⟩ : ∃ g, avgGain closes = some g ∧ 0 ≤ g :=
      ⟨_, avgGain_eq closes h15,
        div_nonneg (last14sum_gains_nonneg closes) (by norm_num)⟩
    obtain ⟨j, hj1, hj2, hjneg⟩ := hw ((deltas closes).length - 14) (by omega)
    have hjlt : j < (deltas closes).length := by omega
    have hjL : j < (losses closes).length := by omega
    have hvalj : (losses closes).getD j 0 = max (-((deltas closes).getD j 0)) 0 := by
      rw [List.getD_eq_getElem _ _ hjL, List.getD_eq_getElem _ _ hjlt]
      simp [losses]
    have hposj : 0 < (losses closes).getD j 0 := by
      rw [hvalj]
      exact lt_max_iff.mpr (Or.inl (by linarith))
    have hsum_pos : 0 < last14sum (losses closes) := by
      rw [last14sum]
      have hidx : j - ((losses closes).length - 14) <
          ((losses closes).drop ((losses closes).length - 14)).length := by
        rw [List.length_drop]
        omega
      have hmem : (losses closes).getD j 0 ∈
          (losses closes).drop ((losses closes).length - 14) := by
        rw [← getD_drop_sub (losses closes) ((losses closes).length - 14) j (by omega)]
        rw [List.getD_eq_getElem _ _ hidx]
        exact List.getElem_mem hidx
      calc (0 : ℚ) < (losses closes).getD j 0 := hposj
        _ ≤ _ := List.single_le_sum
            (fun x hx => losses_nonneg closes x (List.drop_subset _ _ hx)) _ hmem
    have hal : avgLoss closes = some (last14sum (losses closes) / 14) :=
      avgLoss_eq closes h15
    have hlq : 0 < last14sum (losses closes) / 14 := div_pos hsum_pos (by norm_num)
    simp only [rsiLast, hg, hal, xOfOpt]
    have e1 : xdiv (XQ.fin g) (XQ.fin (last14sum (losses closes) / 14)) =
        XQ.fin (g / (last14sum (losses closes) / 14)) := by
      simp [xdiv, hlq.ne']
    have hrs0 : 0 ≤ g / (last14sum (losses closes) / 14) := div_nonneg hg0 hlq.le
    have h1rs : (0 : ℚ) < 1 + g / (last14sum (losses closes) / 14) := by linarith
    have e3 : xdiv (XQ.fin 100)
        (XQ.fin (1 + g / (last14sum (losses closes) / 14))) =
        XQ.fin (100 / (1 + g / (last14sum (losses closes) / 14))) := by
      simp [xdiv, h1rs.ne']
    have e4 : xsub (XQ.fin 100)
        (XQ.fin (100 / (1 + g / (last14sum (losses closes) / 14)))) =
        XQ.fin (100 - 100 / (1 + g / (last14sum (losses closes) / 14))) := by
      simp [xsub, xadd, xneg, sub_eq_add_neg]
    rw [e1, show xadd (XQ.fin 1) (XQ.fin (g / (last14sum (losses closes) / 14))) =
      XQ.fin (1 + g / (last14sum (losses closes) / 14)) from rfl, e3, e4]
    refine ⟨_, rfl, ?_, ?_⟩
    · have hle : 100 / (1 + g / (last14sum (losses closes) / 14)) ≤ 100 :=
        div_le_self (by norm_num) (by linarith)
      linarith
    · have hpos' : 0 < 100 / (1 + g / (last14sum (losses closes) / 14)) :=
        div_pos (by norm_num) h1rs
      linarith

/-- C7, witness: the amended theorem evaluated on the strictly
decreasing series `30..16`, where the computed indicator is 0. -/
theorem c7_witness :
    ∃ q, ({ price := 16
            change := -100 / 17
            rsi := XQ.fin 0
            history := [30, 29, 28, 27, 26, 25, 24, 23, 22, 21, 20, 19, 18, 17, 16] } :
          MarketData).rsi = XQ.fin q ∧ 0 ≤ q ∧ q < 100 :=
  c7_amended [30, 29, 28, 27, 26, 25, 24, 23, 22, 21, 20, 19, 18, 17, 16]
    (by decide)
    (by
      intro i hi
      have hL : (deltas [30, 29, 28, 27, 26, 25, 24, 23, 22, 21,
          20, 19, 18, 17, 16]).length = 14 := by decide
      rw [hL] at hi
      have hi0 : i = 0 := by omega
      subst hi0
      refine ⟨0, le_refl 0, by norm_num, ?_⟩
      norm_num [deltas, List.zipWith, List.getD_cons_zero])
    { price := 16
      change := -100 / 17
      rsi := XQ.fin 0
      history := [30, 29, 28, 27, 26, 25, 24, 23, 22, 21, 20, 19, 18, 17, 16] }
    (by norm_num [get_market_data, prevClose, lastClose, rsiLast, avgGain,
      avgLoss, rollingMean14Last, gains, losses, deltas, last14sum, xOfOpt,
      xdiv, xadd, xsub, xneg, List.zipWith, List.drop, List.getLastD])

end RiskDashboard
